import Mathlib

/-!
Verification of the core extension layer of the Django/MariaDB enhanced
integration repository: the vector codec (`VectorField.get_prep_value`,
`VectorField.from_db_value`, `VectorField.to_python`), the similarity engine
(`VectorQueryMixin.search_similar`, `VectorQueryMixin._cosine_similarity`),
the temporal lifecycle controller (`TemporalMixin.enable_temporal`,
`TemporalMixin.get_history`, `DatabaseOperations.enable_temporal_table`) and
the JSON metadata mutation helpers of `blog_demo/models.py`
(`_load_json_field`, `Post.add_tag`, `Post.set_category`,
`Comment.flag_for_moderation`, `Analytics.increment_metric`).

Float64 values handled by the codec are modelled by their 64-bit patterns
(`Nat` below `2 ^ 64`); `numpy.ndarray.tobytes` writes each element as eight
native little-endian bytes and `numpy.frombuffer` reads them back, which is
what `bytesOfWord` / `words8` capture.  Real-valued similarity arithmetic is
modelled over `ℝ`.
-/

set_option maxHeartbeats 1000000

instance {ε α : Type} [DecidableEq ε] [DecidableEq α] : DecidableEq (Except ε α) := fun x y =>
  match x, y with
  | .ok a, .ok b => decidable_of_iff (a = b) (by simp)
  | .error a, .error b => decidable_of_iff (a = b) (by simp)
  | .ok _, .error _ => isFalse (fun h => Except.noConfusion h)
  | .error _, .ok _ => isFalse (fun h => Except.noConfusion h)

/-! ## Vector codec: byte-level model of numpy tobytes / frombuffer -/

/-- The eight little-endian base-256 digits of a 64-bit word, as
`numpy.float64.tobytes` produces for one element. -/
def bytesOfWord (w : Nat) : List Nat :=
  [w % 256, w / 256 % 256, w / 256 / 256 % 256, w / 256 / 256 / 256 % 256,
   w / 256 / 256 / 256 / 256 % 256, w / 256 / 256 / 256 / 256 / 256 % 256,
   w / 256 / 256 / 256 / 256 / 256 / 256 % 256,
   w / 256 / 256 / 256 / 256 / 256 / 256 / 256 % 256]

/-- Recombine eight little-endian bytes into a 64-bit word. -/
def wordOfBytes8 (b0 b1 b2 b3 b4 b5 b6 b7 : Nat) : Nat :=
  b0 + 256 * (b1 + 256 * (b2 + 256 * (b3 + 256 * (b4 + 256 * (b5 + 256 * (b6 + 256 * b7))))))

/-- Group a flat byte buffer into 64-bit words, eight bytes at a time
(the element decoding loop of `numpy.frombuffer(value, dtype=np.float64)`). -/
def words8 : List Nat → List Nat
  | b0 :: b1 :: b2 :: b3 :: b4 :: b5 :: b6 :: b7 :: rest =>
      wordOfBytes8 b0 b1 b2 b3 b4 b5 b6 b7 :: words8 rest
  | _ => []

/-- Model of `numpy.ndarray.tobytes` on a float64 array: each element
contributes its eight bytes, in element order. -/
def tobytes : List Nat → List Nat
  | [] => []
  | w :: ws => bytesOfWord w ++ tobytes ws

/-- Model of `numpy.frombuffer(_, dtype=np.float64)`: fails (ValueError)
when the buffer length is not a multiple of the 8-byte item size, otherwise
yields one word per 8-byte group. -/
def frombuffer (bs : List Nat) : Option (List Nat) :=
  if bs.length % 8 = 0 then some (words8 bs) else none

/-- Inputs reaching `VectorField.get_prep_value` / `VectorField.to_python`:
a numpy array, `None`, a raw byte string, a Python list/tuple of numbers, or
any other Python value (held abstractly by a label). -/
inductive PyVal where
  | ndarray (v : List Nat)
  | pynone
  | byteArr (bs : List Nat)
  | pylist (v : List Nat)
  | other (s : String)
deriving DecidableEq

/-- Results of `get_prep_value`: `None` passthrough, an encoded byte string,
or the unrecognized input returned unchanged. -/
inductive PrepOut where
  | pynone
  | bytes (bs : List Nat)
  | raw (s : String)
deriving DecidableEq

/-- Model of `VectorField.get_prep_value` (fields.py lines 44-52): `None` is
passed through, numpy arrays and lists/tuples are serialized with `tobytes`,
and any other value is returned unchanged.  No dimension check is made. -/
def get_prep_value (value : PyVal) : PrepOut :=
  match value with
  | .pynone => .pynone
  | .ndarray v => .bytes (tobytes v)
  | .pylist v => .bytes (tobytes v)
  | .byteArr bs => .bytes bs
  | .other s => .raw s

/-- The decoding failure raised by `numpy.frombuffer` on a buffer whose
length is not a multiple of the item size. -/
inductive VErr where
  | corruptVector
deriving DecidableEq

/-- Model of `VectorField.from_db_value` (fields.py lines 26-30): `None` is
passed through, otherwise the raw bytes are handed to `numpy.frombuffer`
with no check against the declared dimension. -/
def from_db_value (value : Option (List Nat)) : Except VErr (Option (List Nat)) :=
  match value with
  | none => .ok none
  | some bs => if bs.length % 8 = 0 then .ok (some (words8 bs)) else .error .corruptVector

/-- Model of `VectorField.to_python` (fields.py lines 32-42): numpy arrays
and `None` pass through, bytes are decoded with `numpy.frombuffer`, lists
and tuples are coerced to float64 arrays, and any other value is returned
unchanged. -/
def to_python (value : PyVal) : Except VErr PyVal :=
  match value with
  | .ndarray v => .ok (.ndarray v)
  | .pynone => .ok .pynone
  | .byteArr bs =>
      if bs.length % 8 = 0 then .ok (.ndarray (words8 bs)) else .error .corruptVector
  | .pylist v => .ok (.ndarray v)
  | .other s => .ok (.other s)

/-! ## Temporal lifecycle controller -/

/-- Lower-case a Python string (`str.lower`), modelled on char lists. -/
def lowerStr (s : List Char) : List Char := s.map Char.toLower

/-- Whether `pat` is a prefix of `s` (helper for substring search). -/
def isPrefixSeq : List Char → List Char → Bool
  | [], _ => true
  | _ :: _, [] => false
  | p :: ps, c :: cs => p == c && isPrefixSeq ps cs

/-- Model of Python substring containment (`pat in s`). -/
def containsSeq (pat : List Char) : List Char → Bool
  | [] => isPrefixSeq pat []
  | c :: cs => isPrefixSeq pat (c :: cs) || containsSeq pat cs

/-- The characters of the vendor marker searched for by `enable_temporal`. -/
def mariadbChars : List Char := ['m', 'a', 'r', 'i', 'a', 'd', 'b']

/-- Whether the lower-cased version string mentions the compatible vendor
(`'mariadb' in ver_str`). -/
def hasMaria (v : List Char) : Bool := containsSeq mariadbChars v

/-- Characters of `s` strictly before the first occurrence of `d`
(the first element of Python `s.split(d)`). -/
def beforeChar (d : Char) (s : List Char) : List Char := s.takeWhile (fun c => c != d)

/-- The suffix of `s` starting at the first occurrence of `d` (empty when
`d` does not occur). -/
def afterChar (d : Char) (s : List Char) : List Char := s.dropWhile (fun c => c != d)

/-- Parse a run of decimal digits accumulating into `acc`; fails on any
non-digit character. -/
def parseDigitsAux : List Char → Nat → Option Nat
  | [], acc => some acc
  | c :: cs, acc =>
      if 48 ≤ c.toNat ∧ c.toNat ≤ 57 then parseDigitsAux cs (acc * 10 + (c.toNat - 48))
      else none

/-- Model of Python `int(s)` on a string: surrounding spaces are stripped,
an optional sign is allowed, and at least one digit is required. -/
def pyInt (s : List Char) : Option Int :=
  let t := ((s.dropWhile (fun c => c == ' ')).reverse.dropWhile (fun c => c == ' ')).reverse
  match t with
  | [] => none
  | c :: cs =>
      if c == '-' then
        match cs with
        | [] => none
        | _ :: _ => (parseDigitsAux cs 0).map (fun n => -(n : Int))
      else if c == '+' then
        match cs with
        | [] => none
        | _ :: _ => (parseDigitsAux cs 0).map (fun n => (n : Int))
      else (parseDigitsAux t 0).map (fun n => (n : Int))

/-- The `(major, minor)` pair `enable_temporal` parses out of the
lower-cased version string: the text before the first dash is split on dots,
`int()` is applied to the first one or two parts, and any parse failure
yields `(0, 0)` (the `except` branch). -/
def verKey (vlow : List Char) : Int × Int :=
  let numeric := beforeChar '-' vlow
  let part0 := beforeChar '.' numeric
  let rest := afterChar '.' numeric
  match pyInt part0 with
  | none => (0, 0)
  | some major =>
      if rest.isEmpty then (major, 0)
      else
        match pyInt (beforeChar '.' (rest.drop 1)) with
        | none => (0, 0)
        | some minor => (major, minor)

/-- Python lexicographic comparison of `(major, minor)` tuples. -/
def ltVerB (a b : Int × Int) : Bool :=
  decide (a.1 < b.1) || (decide (a.1 = b.1) && decide (a.2 < b.2))

/-- Outcome of the version/vendor precondition check inside
`TemporalMixin.enable_temporal` (fields.py lines 96-121). -/
inductive PreCheck where
  | proceed
  | versionTooLow
  | unsupportedEngine
deriving DecidableEq

/-- The precondition check of `enable_temporal`: the lower-cased reported
version must contain `mariadb` and parse to at least `(10, 3)`. -/
def check_preconditions (server_version : List Char) : PreCheck :=
  let v := lowerStr server_version
  if hasMaria v then
    if ltVerB (verKey v) (10, 3) then .versionTooLow else .proceed
  else .unsupportedEngine

/-- The table schema state acted on by the temporal ALTER statements. -/
structure Schema where
  cols : List String
  period : Bool
  versioned : Bool
deriving DecidableEq

/-- Errors raised by MariaDB for the individual ALTER clauses when their
target already exists and no `IF NOT EXISTS` guard is present. -/
inductive AlterErr where
  | dupColumn (name : String)
  | dupPeriod
  | dupVersioning
deriving DecidableEq

/-- `ADD COLUMN [IF NOT EXISTS] name`: a duplicate column is an error
without the guard and a no-op with it. -/
def addColumn (guard : Bool) (name : String) (s : Schema) : Except AlterErr Schema :=
  if name ∈ s.cols then
    if guard then .ok s else .error (.dupColumn name)
  else .ok { s with cols := s.cols ++ [name] }

/-- `ADD PERIOD FOR SYSTEM_TIME [IF NOT EXISTS]`. -/
def addPeriod (guard : Bool) (s : Schema) : Except AlterErr Schema :=
  if s.period then
    if guard then .ok s else .error .dupPeriod
  else .ok { s with period := true }

/-- `ADD SYSTEM VERSIONING [IF NOT EXISTS]`. -/
def addVersioning (guard : Bool) (s : Schema) : Except AlterErr Schema :=
  if s.versioned then
    if guard then .ok s else .error .dupVersioning
  else .ok { s with versioned := true }

/-- Execute the four-clause temporal ALTER statement; MariaDB applies ALTER
atomically, so the first failing clause aborts the whole statement with the
schema unchanged.  `guard` is whether the statement carries the
`IF NOT EXISTS` guards (`DatabaseOperations.enable_temporal_table` does,
`TemporalMixin.enable_temporal` does not). -/
def alterEnableSql (guard : Bool) (s : Schema) : Except AlterErr Schema :=
  match addColumn guard "row_start" s with
  | .error e => .error e
  | .ok s1 =>
      match addColumn guard "row_end" s1 with
      | .error e => .error e
      | .ok s2 =>
          match addPeriod guard s2 with
          | .error e => .error e
          | .ok s3 => addVersioning guard s3

/-- Failures surfaced by `TemporalMixin.enable_temporal`. -/
inductive TemporalErr where
  | unsupportedEngine
  | versionTooLow
  | alter (e : AlterErr)
deriving DecidableEq

/-- Model of `TemporalMixin.enable_temporal` (fields.py lines 88-130):
check the reported server version, then run the unguarded temporal ALTER. -/
def enable_temporal (server_version : List Char) (s : Schema) : Except TemporalErr Schema :=
  match check_preconditions server_version with
  | .unsupportedEngine => .error .unsupportedEngine
  | .versionTooLow => .error .versionTooLow
  | .proceed =>
      match alterEnableSql false s with
      | .ok s2 => .ok s2
      | .error e => .error (.alter e)

/-- Model of executing the SQL returned by
`DatabaseOperations.enable_temporal_table` (backend.py lines 64-75), whose
clauses all carry `IF NOT EXISTS` guards. -/
def enable_temporal_table (s : Schema) : Except AlterErr Schema := alterEnableSql true s

/-- A historical physical row as returned by
`SELECT * FROM t FOR SYSTEM_TIME ALL`: identity, validity interval bounds
and the remaining attribute snapshot (held abstractly). -/
structure Row where
  id : Nat
  row_start : Int
  row_end : Int
  payload : Nat
deriving DecidableEq

/-- The `row_start >= start_date` condition `get_history` appends when a
start date is given. -/
def startOk (start_date : Option Int) (r : Row) : Bool :=
  match start_date with
  | none => true
  | some t => decide (t ≤ r.row_start)

/-- The `row_end <= end_date` condition `get_history` appends when an end
date is given. -/
def endOk (end_date : Option Int) (r : Row) : Bool :=
  match end_date with
  | none => true
  | some t => decide (r.row_end ≤ t)

/-- Model of `TemporalMixin.get_history` (fields.py lines 132-153): the
query `SELECT * FROM t FOR SYSTEM_TIME ALL WHERE id = %s` with the optional
`row_start >= start` and `row_end <= end` conjuncts and no ORDER BY, run
against a table whose rows arrive in storage order `tbl`. -/
def get_history (tbl : List Row) (pk : Nat) (start_date end_date : Option Int) : List Row :=
  tbl.filter (fun r => r.id == pk && startOk start_date r && endOk end_date r)

/-- The spec's keep-condition for `query_history` with a range: a snapshot
is kept unless its interval ends before `start` or starts after `end`. -/
def specKeepsSnapshot (r : Row) (start_date end_date : Option Int) : Prop :=
  (∀ t, start_date = some t → ¬ r.row_end < t) ∧
  (∀ t, end_date = some t → ¬ r.row_start > t)

/-! ## Similarity engine -/

/-- Model of `numpy.dot` on equal-length float64 vectors, over `ℝ`. -/
def dotl (a b : List ℝ) : ℝ := (List.zipWith (fun x y => x * y) a b).sum

/-- Model of `numpy.linalg.norm`: the Euclidean norm, the square root of
the sum of squares. -/
noncomputable def normE (a : List ℝ) : ℝ := Real.sqrt ((a.map (fun x => x * x)).sum)

open Classical in
/-- Model of `VectorQueryMixin._cosine_similarity` (fields.py lines
206-212): `dot / (norm1 * norm2)` guarded by Python float truthiness of the
two norms (returns `0.0` when either norm is zero). -/
noncomputable def cosine_similarity (a b : List ℝ) : ℝ :=
  if normE a ≠ 0 ∧ normE b ≠ 0 then dotl a b / (normE a * normE b) else 0

/-- A candidate record as seen by `search_similar`: its identity and its
(possibly absent) stored vector. -/
structure Cand where
  cid : Nat
  vec : Option (List ℝ)

/-- A scored result: the candidate's position in iteration order, its
identity and its attached `similarity_score`. -/
structure Scored where
  idx : Nat
  cid : Nat
  score : ℝ

open Classical in
/-- The scoring loop of `search_similar` (fields.py lines 185-192): walk
the candidates in iteration order starting at position `i`, skip those with
an absent vector, score the rest and keep scores `>= threshold`. -/
noncomputable def scoreCands (query : List ℝ) (threshold : ℝ) : Nat → List Cand → List Scored
  | _, [] => []
  | i, c :: cs =>
      match c.vec with
      | none => scoreCands query threshold (i + 1) cs
      | some v =>
          if threshold ≤ cosine_similarity query v then
            ⟨i, c.cid, cosine_similarity query v⟩ :: scoreCands query threshold (i + 1) cs
          else scoreCands query threshold (i + 1) cs

open Classical in
/-- Insert one element into a list already sorted by descending score,
after every element of score `> x.score` and before the rest; this realizes
one step of a stable descending sort. -/
noncomputable def insertDesc (x : Scored) : List Scored → List Scored
  | [] => [x]
  | y :: ys => if x.score < y.score then y :: insertDesc x ys else x :: y :: ys

/-- Stable sort by descending score, the extensional behaviour of Python's
`results.sort(key=lambda x: x.similarity_score, reverse=True)`. -/
noncomputable def sortDesc : List Scored → List Scored
  | [] => []
  | x :: xs => insertDesc x (sortDesc xs)

/-- Model of `VectorQueryMixin.search_similar` (fields.py lines 161-196):
score the candidates, stably sort by descending score and return the first
`limit` results. -/
noncomputable def search_similar (query : List ℝ) (cands : List Cand) (limit : Nat)
    (threshold : ℝ) : List Scored :=
  (sortDesc (scoreCands query threshold 0 cands)).take limit

/-! ## JSON metadata model -/

/-- JSON values as Python's `json` module produces them: finite numbers
held as rationals, plus the non-finite floats `nan` and `±inf` that
`json.loads` produces for its accepted constants `NaN`, `Infinity` and
`-Infinity`. -/
inductive JVal where
  | null
  | jbool (b : Bool)
  | num (q : ℚ)
  | nan
  | inf (neg : Bool)
  | str (s : String)
  | arr (xs : List JVal)
  | obj (kvs : List (String × JVal))

mutual

/-- Boolean equality of JSON values (Python `==` on parsed documents;
`nan` is unequal even to itself, as Python's `float('nan')` is). -/
def beqJ : JVal → JVal → Bool
  | .null, .null => true
  | .jbool a, .jbool b => a == b
  | .num a, .num b => a == b
  | .nan, .nan => false
  | .inf a, .inf b => a == b
  | .str a, .str b => a == b
  | .arr xs, .arr ys => beqJList xs ys
  | .obj xs, .obj ys => beqJObj xs ys
  | _, _ => false

/-- Boolean equality of JSON arrays, element by element. -/
def beqJList : List JVal → List JVal → Bool
  | [], [] => true
  | x :: xs, y :: ys => beqJ x y && beqJList xs ys
  | _, _ => false

/-- Boolean equality of JSON object member lists, pair by pair. -/
def beqJObj : List (String × JVal) → List (String × JVal) → Bool
  | [], [] => true
  | (k1, v1) :: xs, (k2, v2) :: ys => k1 == k2 && beqJ v1 v2 && beqJObj xs ys
  | _, _ => false

end

/-- Look up a key in a Python dict modelled as an insertion-ordered
association list. -/
def objGet (kvs : List (String × JVal)) (k : String) : Option JVal :=
  match kvs with
  | [] => none
  | (k2, v) :: rest => if k2 == k then some v else objGet rest k

/-- Set a key in a Python dict: an existing key is updated in place, a new
key is appended at the end (insertion order). -/
def objSet (kvs : List (String × JVal)) (k : String) (v : JVal) : List (String × JVal) :=
  match kvs with
  | [] => [(k, v)]
  | (k2, v2) :: rest => if k2 == k then (k2, v) :: rest else (k2, v2) :: objSet rest k v

/-- The double-quote character. -/
def quoteChar : Char := Char.ofNat 34

/-- The backslash character. -/
def bslashChar : Char := Char.ofNat 92

/-- The opening curly bracket. -/
def lcurlChar : Char := Char.ofNat 123

/-- The closing curly bracket. -/
def rcurlChar : Char := Char.ofNat 125

/-- JSON whitespace characters (space, tab, newline, carriage return). -/
def isWs (c : Char) : Bool :=
  c == ' ' || c == Char.ofNat 9 || c == Char.ofNat 10 || c == Char.ofNat 13

/-- Drop leading JSON whitespace. -/
def skipWs (cs : List Char) : List Char := cs.dropWhile isWs

/-- Numeric value of a decimal digit string. -/
def natOfDigits (cs : List Char) : Nat := cs.foldl (fun a c => a * 10 + (c.toNat - 48)) 0

/-- Numeric value of a hexadecimal digit, if any. -/
def hexVal (c : Char) : Option Nat :=
  if 48 ≤ c.toNat ∧ c.toNat ≤ 57 then some (c.toNat - 48)
  else if 97 ≤ c.toNat ∧ c.toNat ≤ 102 then some (c.toNat - 87)
  else if 65 ≤ c.toNat ∧ c.toNat ≤ 70 then some (c.toNat - 55)
  else none

/-- Translation of a single-character JSON string escape. -/
def escChar (c : Char) : Option Char :=
  if c == quoteChar then some quoteChar
  else if c == bslashChar then some bslashChar
  else if c == '/' then some '/'
  else if c == 'b' then some (Char.ofNat 8)
  else if c == 'f' then some (Char.ofNat 12)
  else if c == 'n' then some (Char.ofNat 10)
  else if c == 'r' then some (Char.ofNat 13)
  else if c == 't' then some (Char.ofNat 9)
  else none

/-- The stand-in character recorded for a lone surrogate code unit:
Python's `json.loads` accepts a lone `\uD800`-range escape and keeps the
surrogate in the resulting `str`, but a Lean `Char` cannot carry a
surrogate code point, so the model records U+FFFD in its place.  Only
acceptance (never the identity of such a character) is relied on by the
theorems. -/
def loneSurrogateChar : Char := Char.ofNat 65533

/-- Parse the body of a JSON string after the opening quote, handling
escapes (including `\uXXXX` with surrogate-pair combination and accepted
lone surrogates, as Python's `json.loads` does) and rejecting raw control
characters, returning the decoded string and the input remaining after the
closing quote.  Every step consumes at least one character, so the fuel
`cs.length + 1` handed over by the callers never runs out. -/
def parseStringBody : Nat → List Char → List Char → Option (String × List Char)
  | 0, _, _ => none
  | _ + 1, [], _ => none
  | fuel + 1, c :: rest, acc =>
      if c == quoteChar then some (String.mk acc.reverse, rest)
      else if c == bslashChar then
        match rest with
        | [] => none
        | e :: rest2 =>
            if e == 'u' then
              match rest2 with
              | h1 :: h2 :: h3 :: h4 :: rest3 =>
                  match hexVal h1, hexVal h2, hexVal h3, hexVal h4 with
                  | some a, some b, some c2, some d =>
                      let n := ((a * 16 + b) * 16 + c2) * 16 + d
                      if 0xD800 ≤ n ∧ n < 0xDC00 then
                        match rest3 with
                        | b1 :: u1 :: h5 :: h6 :: h7 :: h8 :: rest4 =>
                            if b1 == bslashChar && u1 == 'u' then
                              match hexVal h5, hexVal h6, hexVal h7, hexVal h8 with
                              | some a2, some b2, some c3, some d2 =>
                                  let m := ((a2 * 16 + b2) * 16 + c3) * 16 + d2
                                  if 0xDC00 ≤ m ∧ m < 0xE000 then
                                    parseStringBody fuel rest4
                                      (Char.ofNat (0x10000 + (n - 0xD800) * 0x400 + (m - 0xDC00))
                                        :: acc)
                                  else parseStringBody fuel rest3 (loneSurrogateChar :: acc)
                              | _, _, _, _ => parseStringBody fuel rest3 (loneSurrogateChar :: acc)
                            else parseStringBody fuel rest3 (loneSurrogateChar :: acc)
                        | _ => parseStringBody fuel rest3 (loneSurrogateChar :: acc)
                      else if 0xDC00 ≤ n ∧ n < 0xE000 then
                        parseStringBody fuel rest3 (loneSurrogateChar :: acc)
                      else parseStringBody fuel rest3 (Char.ofNat n :: acc)
                  | _, _, _, _ => none
              | _ => none
            else
              match escChar e with
              | some ec => parseStringBody fuel rest2 (ec :: acc)
              | none => none
      else if c.toNat < 32 then none
      else parseStringBody fuel rest (c :: acc)

/-- Parse an optional JSON fraction part, returning its rational value. -/
def parseFrac (cs : List Char) : Option (ℚ × List Char) :=
  match cs with
  | c :: rest =>
      if c == '.' then
        let fd := rest.takeWhile Char.isDigit
        let rest2 := rest.dropWhile Char.isDigit
        if fd.isEmpty then none
        else some ((natOfDigits fd : ℚ) / (10 : ℚ) ^ fd.length, rest2)
      else some (0, cs)
  | [] => some (0, cs)

/-- Parse an optional JSON exponent part, returning the signed exponent. -/
def parseExp (cs : List Char) : Option (Int × List Char) :=
  match cs with
  | c :: rest =>
      if c == 'e' || c == 'E' then
        let signAndRest :=
          match rest with
          | d :: r2 =>
              if d == '+' then ((1 : Int), r2)
              else if d == '-' then ((-1 : Int), r2)
              else ((1 : Int), rest)
          | [] => ((1 : Int), rest)
        let ed := signAndRest.2.takeWhile Char.isDigit
        let rest2 := signAndRest.2.dropWhile Char.isDigit
        if ed.isEmpty then none else some (signAndRest.1 * (natOfDigits ed : Int), rest2)
      else some (0, cs)
  | [] => some (0, cs)

/-- Parse a JSON number (optional minus, integer part without leading
zeros, optional fraction, optional exponent). -/
def parseNumber (cs : List Char) : Option (JVal × List Char) :=
  let negAndRest :=
    match cs with
    | c :: rest => if c == '-' then (true, rest) else (false, cs)
    | [] => (false, cs)
  let ip := negAndRest.2.takeWhile Char.isDigit
  let cs2 := negAndRest.2.dropWhile Char.isDigit
  if ip.isEmpty then none
  else if 1 < ip.length ∧ ip.headD '0' == '0' then none
  else
    match parseFrac cs2 with
    | none => none
    | some (fv, cs3) =>
        match parseExp cs3 with
        | none => none
        | some (e, cs4) =>
            let base : ℚ := (natOfDigits ip : ℚ) + fv
            let signed : ℚ := if negAndRest.1 then -base else base
            some (.num (signed * (10 : ℚ) ^ e), cs4)

/-- What the recursive-descent JSON reader is currently parsing: a value,
the tail of an array after the opening bracket, the comma-separated items
of a non-empty array, the tail of an object after the opening brace, or the
comma-separated members of a non-empty object. -/
inductive PMode where
  | value
  | arrayRest
  | items (acc : List JVal)
  | objRest
  | members (acc : List (String × JVal))

/-- The recursive-descent JSON reader, recursing on `fuel`; each
constructor of `PMode` corresponds to one production of the JSON grammar
accepted by Python's `json.loads`. -/
def parseRun (fuel : Nat) (mode : PMode) (cs : List Char) : Option (JVal × List Char) :=
  match fuel with
  | 0 => none
  | f + 1 =>
      match mode with
      | .value =>
          match skipWs cs with
          | [] => none
          | c :: rest =>
              if c == 'n' then
                if rest.take 3 = ['u', 'l', 'l'] then some (.null, rest.drop 3) else none
              else if c == 't' then
                if rest.take 3 = ['r', 'u', 'e'] then some (.jbool true, rest.drop 3) else none
              else if c == 'f' then
                if rest.take 4 = ['a', 'l', 's', 'e'] then some (.jbool false, rest.drop 4)
                else none
              else if c == 'N' then
                if rest.take 2 = ['a', 'N'] then some (.nan, rest.drop 2) else none
              else if c == 'I' then
                if rest.take 7 = ['n', 'f', 'i', 'n', 'i', 't', 'y'] then
                  some (.inf false, rest.drop 7)
                else none
              else if c == quoteChar then
                match parseStringBody (rest.length + 1) rest [] with
                | some (s, cs2) => some (.str s, cs2)
                | none => none
              else if c == '[' then parseRun f .arrayRest (skipWs rest)
              else if c == lcurlChar then parseRun f .objRest (skipWs rest)
              else if c == '-' then
                if rest.take 8 = ['I', 'n', 'f', 'i', 'n', 'i', 't', 'y'] then
                  some (.inf true, rest.drop 8)
                else parseNumber (c :: rest)
              else parseNumber (c :: rest)
      | .arrayRest =>
          match cs with
          | [] => none
          | c :: _ =>
              if c == ']' then some (.arr [], cs.drop 1)
              else parseRun f (.items []) cs
      | .items acc =>
          match parseRun f .value cs with
          | none => none
          | some (v, cs2) =>
              match skipWs cs2 with
              | [] => none
              | c :: rest =>
                  if c == ',' then parseRun f (.items (acc ++ [v])) rest
                  else if c == ']' then some (.arr (acc ++ [v]), rest)
                  else none
      | .objRest =>
          match cs with
          | [] => none
          | c :: _ =>
              if c == rcurlChar then some (.obj [], cs.drop 1)
              else parseRun f (.members []) cs
      | .members acc =>
          match skipWs cs with
          | [] => none
          | c :: rest =>
              if c == quoteChar then
                match parseStringBody (rest.length + 1) rest [] with
                | none => none
                | some (k, cs2) =>
                    match skipWs cs2 with
                    | [] => none
                    | c2 :: rest2 =>
                        if c2 == ':' then
                          match parseRun f .value rest2 with
                          | none => none
                          | some (v, cs3) =>
                              match skipWs cs3 with
                              | [] => none
                              | c3 :: rest3 =>
                                  if c3 == ',' then parseRun f (.members (objSet acc k v)) rest3
                                  else if c3 == rcurlChar then
                                    some (.obj (objSet acc k v), rest3)
                                  else none
                        else none
              else none


/-- Model of Python `json.loads`: parse one JSON value — including the
accepted non-finite constants `NaN`, `Infinity` and `-Infinity`, lone or
paired surrogate escapes, and CPython dict semantics for duplicate object
keys (the later value wins in the first occurrence's position) — and
require that only whitespace follows it.  The fuel bound is generous
enough for any input the repository handles; an exhausted fuel reports
failure, as an unparseable document does. -/
def json_loads (s : String) : Option JVal :=
  match parseRun (2 * s.length + 2) .value s.data with
  | none => none
  | some (v, rest) => if (skipWs rest).isEmpty then some v else none

/-- The shapes a stored `metadata` / `metrics` column value can take when
it reaches `_load_json_field`: `None`, a string from the driver, or an
already-decoded Python JSON object. -/
inductive Stored where
  | pynone
  | pystr (s : String)
  | pyobj (j : JVal)

/-- Model of `_load_json_field` (blog_demo/models.py lines 7-21): `None`
becomes an empty dict, a string is parsed with `json.loads` falling back to
an empty dict on any parse failure, and anything else is returned as is. -/
def load_json_field (value : Stored) : JVal :=
  match value with
  | .pynone => .obj []
  | .pystr s =>
      match json_loads s with
      | some j => j
      | none => .obj []
  | .pyobj j => j

/-- The TypeError Python raises when a mutation helper indexes or extends a
loaded document of the wrong shape. -/
inductive MErr where
  | typeError
deriving DecidableEq

/-- Model of `Post.add_tag` (blog_demo/models.py lines 104-112): load the
metadata, create the `tags` list when missing, and append the tag when not
already present.  The produced document is the new value of `metadata`. -/
def add_tag (stored : Stored) (tag : String) : Except MErr JVal :=
  match load_json_field stored with
  | .obj kvs =>
      match objGet kvs "tags" with
      | none => .ok (.obj (objSet kvs "tags" (.arr [.str tag])))
      | some (.arr ts) =>
          if ts.any (fun t => beqJ t (.str tag)) then .ok (.obj kvs)
          else .ok (.obj (objSet kvs "tags" (.arr (ts ++ [.str tag]))))
      | some _ => .error .typeError
  | _ => .error .typeError

/-- Model of `Post.set_category` (blog_demo/models.py lines 114-119). -/
def set_category (stored : Stored) (category : String) : Except MErr JVal :=
  match load_json_field stored with
  | .obj kvs => .ok (.obj (objSet kvs "category" (.str category)))
  | _ => .error .typeError

/-- Model of `Comment.flag_for_moderation` (blog_demo/models.py lines
146-154); `now` is the stringified `timezone.now()`. -/
def flag_for_moderation (stored : Stored) (reason now : String) : Except MErr JVal :=
  match load_json_field stored with
  | .obj kvs =>
      .ok (.obj (objSet (objSet (objSet kvs "flagged" (.jbool true))
        "flag_reason" (.str reason)) "flagged_at" (.str now)))
  | _ => .error .typeError

/-- Model of `Analytics.increment_metric` (blog_demo/models.py lines
224-231): load the metrics, initialize the counter to `0` when missing, and
add `amount`. -/
def increment_metric (stored : Stored) (metric_name : String) (amount : ℚ) :
    Except MErr JVal :=
  match load_json_field stored with
  | .obj kvs =>
      match objGet kvs metric_name with
      | none => .ok (.obj (objSet kvs metric_name (.num (0 + amount))))
      | some (.num q) => .ok (.obj (objSet kvs metric_name (.num (q + amount))))
      | some (.jbool b) =>
          .ok (.obj (objSet kvs metric_name (.num ((if b then 1 else 0) + amount))))
      | some .nan => .ok (.obj (objSet kvs metric_name .nan))
      | some (.inf b) => .ok (.obj (objSet kvs metric_name (.inf b)))
      | some _ => .error .typeError
  | _ => .error .typeError

/-- The property a stored value satisfies when C10 applies to it: `None`,
or a string `json.loads` cannot parse. -/
def invalidStored (v : Stored) : Prop :=
  v = .pynone ∨ ∃ s, v = .pystr s ∧ json_loads s = none

/-! ## Concrete fixtures used by counterexamples and witnesses -/

/-- A table schema before temporal enablement. -/
def baseSchema : Schema := ⟨["id", "title"], false, false⟩

/-- The schema produced by a successful temporal enablement of
`baseSchema`. -/
def enabledSchema : Schema := ⟨["id", "title", "row_start", "row_end"], true, true⟩

/-- A reported MariaDB version string above the minimum. -/
def mariaVer : List Char := "10.6.12-MariaDB".data

/-- A one-row history table whose single snapshot has validity interval
`[0, 5)`. -/
def historyTable : List Row := [⟨1, 0, 5, 0⟩]

/-! ## Helper lemmas for the vector codec -/

theorem wordOfBytes8_bytesOfWord (w : Nat) :
    wordOfBytes8 (w % 256) (w / 256 % 256) (w / 256 / 256 % 256) (w / 256 / 256 / 256 % 256)
      (w / 256 / 256 / 256 / 256 % 256) (w / 256 / 256 / 256 / 256 / 256 % 256)
      (w / 256 / 256 / 256 / 256 / 256 / 256 % 256)
      (w / 256 / 256 / 256 / 256 / 256 / 256 / 256 % 256) = w % 18446744073709551616 := by
  unfold wordOfBytes8
  omega

theorem words8_bytesOfWord_append (w : Nat) (rest : List Nat) :
    words8 (bytesOfWord w ++ rest) = w % 2 ^ 64 :: words8 rest := by
  show words8 (w % 256 :: _ :: _ :: _ :: _ :: _ :: _ :: _ :: rest) = _
  rw [words8]
  rw [wordOfBytes8_bytesOfWord]
  norm_num

theorem length_bytesOfWord (w : Nat) : (bytesOfWord w).length = 8 := rfl

theorem length_tobytes (v : List Nat) : (tobytes v).length = 8 * v.length := by
  induction v with
  | nil => rfl
  | cons w ws ih => simp [tobytes, length_bytesOfWord, ih]; ring

theorem words8_tobytes (v : List Nat) : words8 (tobytes v) = v.map (fun w => w % 2 ^ 64) := by
  induction v with
  | nil => rfl
  | cons w ws ih => rw [tobytes, words8_bytesOfWord_append, ih]; rfl

theorem tobytes_chunk (v : List Nat) (i : Nat) (h : i < v.length) :
    ((tobytes v).drop (8 * i)).take 8 = bytesOfWord (v.get ⟨i, h⟩) := by
  induction v generalizing i with
  | nil => simp at h
  | cons w ws ih =>
    cases i with
    | zero =>
      simp only [tobytes, Nat.mul_zero, List.drop_zero, List.get]
      rw [List.take_append_of_le_length (by simp [length_bytesOfWord])]
      simp [List.take_of_length_le, length_bytesOfWord]
    | succ j =>
      have hlt : j < ws.length := by simpa using h
      have hdrop : (bytesOfWord w ++ tobytes ws).drop (8 * (j + 1)) = (tobytes ws).drop (8 * j) := by
        have h8 : 8 * (j + 1) = (bytesOfWord w).length + 8 * j := by
          simp [length_bytesOfWord]; ring
        rw [h8, List.drop_append]
      simpa [tobytes, hdrop] using ih j hlt

theorem map_mod_eq_self (v : List Nat) (h : ∀ x ∈ v, x < 2 ^ 64) :
    v.map (fun w => w % 2 ^ 64) = v := by
  induction v with
  | nil => rfl
  | cons w ws ih =>
    simp only [List.map_cons, List.cons.injEq]
    exact ⟨Nat.mod_eq_of_lt (h w (by simp)), ih (fun x hx => h x (by simp [hx]))⟩

/-! ## Claim C4 -/

/-- C4 counterexample: `get_prep_value` on the one-element array `[5]`
under the declared dimension 384 succeeds with 8 bytes instead of failing
with `DimensionMismatch`, refuting that encoding never succeeds on a
wrong-length input. -/
theorem get_prep_value_no_dimension_check_cex :
    get_prep_value (.ndarray [5]) = .bytes (bytesOfWord 5)
    ∧ (bytesOfWord 5).length = 8
    ∧ 8 ≠ 384 * 8 :=
  ⟨rfl, rfl, by decide⟩

/-- C4 amended: `get_prep_value` performs no dimension check: for every
input sequence it succeeds, producing exactly `8 * length` bytes, one
8-byte group per element in input order; it never fails with
`DimensionMismatch`. -/
theorem get_prep_value_layout (v : List Nat) :
    get_prep_value (.ndarray v) = .bytes (tobytes v)
    ∧ (tobytes v).length = 8 * v.length
    ∧ ∀ i (h : i < v.length), ((tobytes v).drop (8 * i)).take 8 = bytesOfWord (v.get ⟨i, h⟩) :=
  ⟨rfl, length_tobytes v, fun i h => tobytes_chunk v i h⟩

/-- C4 witness: the amended layout theorem evaluated on the concrete array
`[1, 2]` at index 1. -/
theorem get_prep_value_layout_witness :
    ((tobytes [1, 2]).drop (8 * 1)).take 8 = bytesOfWord (([1, 2] : List Nat).get ⟨1, by decide⟩) :=
  (get_prep_value_layout [1, 2]).2.2 1 (by decide)

/-! ## Claim C5 -/

/-- C5 counterexample: an 8-byte payload under declared dimension 384
(which requires `384 * 8` bytes) is decoded successfully by
`from_db_value` rather than failing with `CorruptVector`, refuting that a
length different from `D * 8` is always a decoding error. -/
theorem from_db_value_no_dimension_check_cex :
    from_db_value (some (bytesOfWord 5)) = .ok (some [5])
    ∧ (bytesOfWord 5).length ≠ 384 * 8 :=
  ⟨by decide, by decide⟩

/-- C5 amended: `from_db_value` fails exactly when the byte length is not
a multiple of 8; the declared dimension is never consulted, and any
multiple of 8 decodes successfully into one float per 8-byte group. -/
theorem from_db_value_error_iff (bs : List Nat) :
    (from_db_value (some bs) = .error .corruptVector ↔ bs.length % 8 ≠ 0)
    ∧ (bs.length % 8 = 0 → from_db_value (some bs) = .ok (some (words8 bs))) := by
  unfold from_db_value
  by_cases h : bs.length % 8 = 0 <;> simp [h]

/-- C5 witness: the amended theorem evaluated on a concrete 3-byte
payload, which is rejected. -/
theorem from_db_value_error_iff_witness :
    from_db_value (some [1, 2, 3]) = .error .corruptVector :=
  (from_db_value_error_iff [1, 2, 3]).1.mpr (by decide)

/-! ## Claim C6 -/

/-- C6: decoding the encoding of any float64 vector returns the vector
exactly, element for element (`from_db_value` after `get_prep_value` is
the identity), for every vector of 64-bit element patterns. -/
theorem vector_roundtrip (v : List Nat) (h : ∀ x ∈ v, x < 2 ^ 64) :
    get_prep_value (.ndarray v) = .bytes (tobytes v)
    ∧ from_db_value (some (tobytes v)) = .ok (some v) := by
  refine ⟨rfl, ?_⟩
  simp only [from_db_value]
  rw [if_pos (by rw [length_tobytes]; exact Nat.mul_mod_right 8 _)]
  rw [words8_tobytes, map_mod_eq_self v h]

/-- C6 witness: the round-trip theorem evaluated on the concrete vector
`[1, 2, 3]`. -/
theorem vector_roundtrip_witness :
    from_db_value (some (tobytes [1, 2, 3])) = .ok (some [1, 2, 3]) :=
  (vector_roundtrip [1, 2, 3] (by decide)).2

/-! ## Claim C9 -/

/-- C9 counterexample: `to_python` returns a value of unrecognized shape
unchanged instead of failing with `UnsupportedVectorSource`. -/
theorem to_python_passthrough_cex :
    to_python (.other "hello") = .ok (.other "hello") := rfl

/-- C9 amended: `to_python` passes numpy arrays and `None` through,
coerces numeric lists, decodes byte strings of valid length (failing on an
invalid byte length), and returns any other input unchanged rather than
failing with `UnsupportedVectorSource`. -/
theorem to_python_cases (v bs : List Nat) (s : String) :
    to_python (.ndarray v) = .ok (.ndarray v)
    ∧ to_python .pynone = .ok .pynone
    ∧ to_python (.pylist v) = .ok (.ndarray v)
    ∧ (bs.length % 8 = 0 → to_python (.byteArr bs) = .ok (.ndarray (words8 bs)))
    ∧ (bs.length % 8 ≠ 0 → to_python (.byteArr bs) = .error .corruptVector)
    ∧ to_python (.other s) = .ok (.other s) := by
  refine ⟨rfl, rfl, rfl, fun h => ?_, fun h => ?_, rfl⟩
  · simp only [to_python]
    rw [if_pos h]
  · simp only [to_python]
    rw [if_neg h]

/-- C9 witness: the case theorem evaluated on concrete byte payloads of
valid and invalid length. -/
theorem to_python_cases_witness :
    to_python (.byteArr (bytesOfWord 7)) = .ok (.ndarray (words8 (bytesOfWord 7)))
    ∧ to_python (.byteArr [1]) = .error .corruptVector :=
  ⟨(to_python_cases [] (bytesOfWord 7) "").2.2.2.1 (by decide),
   (to_python_cases [] [1] "").2.2.2.2.1 (by decide)⟩

/-! ## Claim C1 -/

theorem startOk_iff (sd : Option Int) (r : Row) :
    startOk sd r = true ↔ ∀ t, sd = some t → t ≤ r.row_start := by
  cases sd <;> simp [startOk]

theorem endOk_iff (ed : Option Int) (r : Row) :
    endOk ed r = true ↔ ∀ t, ed = some t → r.row_end ≤ t := by
  cases ed <;> simp [endOk]

/-- C1 counterexample: the snapshot with validity interval `[0, 5)`
overlaps the range starting at 3 (its interval does not end before 3), so
the claim keeps it, yet `get_history` returns the empty result because the
query filters on `row_start >= start` rather than `row_end >= start`. -/
theorem get_history_overlap_excluded_cex :
    specKeepsSnapshot ⟨1, 0, 5, 0⟩ (some 3) none
    ∧ (⟨1, 0, 5, 0⟩ : Row) ∈ historyTable
    ∧ get_history historyTable 1 (some 3) none = [] := by
  refine ⟨⟨?_, ?_⟩, by decide, by decide⟩
  · intro t ht
    injection ht with h
    subst h
    decide
  · intro t ht
    exact absurd ht (by simp)

/-- C1 amended: `get_history` returns the rows of the identity in table
(storage) order with no reordering, keeping exactly the snapshots whose
interval starts at or after `start` (when given) and ends at or before
`end` (when given); snapshots that merely overlap the range are excluded,
and no `ORDER BY` is issued. -/
theorem get_history_filter_characterization (tbl : List Row) (pk : Nat)
    (sd ed : Option Int) :
    List.Sublist (get_history tbl pk sd ed) tbl
    ∧ ∀ r, r ∈ get_history tbl pk sd ed ↔
        r ∈ tbl ∧ r.id = pk
        ∧ (∀ t, sd = some t → t ≤ r.row_start)
        ∧ (∀ t, ed = some t → r.row_end ≤ t) := by
  constructor
  · exact List.filter_sublist tbl
  · intro r
    rw [get_history, List.mem_filter]
    simp only [Bool.and_eq_true, beq_iff_eq, startOk_iff, endOk_iff]
    tauto

/-- C1 witness: the amended characterization evaluated on a concrete
one-row table and range, establishing membership of the contained
snapshot. -/
theorem get_history_filter_witness :
    (⟨1, 4, 6, 0⟩ : Row) ∈ get_history [⟨1, 4, 6, 0⟩] 1 (some 3) (some 9) :=
  ((get_history_filter_characterization [⟨1, 4, 6, 0⟩] 1 (some 3) (some 9)).2 ⟨1, 4, 6, 0⟩).mpr
    ⟨by decide, rfl, fun t ht => by injection ht with h; subst h; decide,
     fun t ht => by injection ht with h; subst h; decide⟩

/-! ## Helper lemmas for the temporal ALTER pipeline -/

theorem addColumn_ok (g : Bool) (n : String) (s s' : Schema) (h : addColumn g n s = .ok s') :
    n ∈ s'.cols ∧ (∀ m ∈ s.cols, m ∈ s'.cols)
    ∧ s'.period = s.period ∧ s'.versioned = s.versioned := by
  unfold addColumn at h
  by_cases hm : n ∈ s.cols
  · rw [if_pos hm] at h
    cases g with
    | false => simp at h
    | true =>
      simp only [if_true] at h
      injection h with h2
      subst h2
      exact ⟨hm, fun m hm2 => hm2, rfl, rfl⟩
  · rw [if_neg hm] at h
    injection h with h2
    subst h2
    refine ⟨by simp, fun m hm2 => by simp [hm2], rfl, rfl⟩

theorem addPeriod_ok (g : Bool) (s s' : Schema) (h : addPeriod g s = .ok s') :
    s'.cols = s.cols ∧ s'.period = true ∧ s'.versioned = s.versioned := by
  unfold addPeriod at h
  by_cases hp : s.period
  · rw [if_pos hp] at h
    cases g with
    | false => simp at h
    | true =>
      simp only [if_true] at h
      injection h with h2
      subst h2
      exact ⟨rfl, hp, rfl⟩
  · rw [if_neg hp] at h
    injection h with h2
    subst h2
    exact ⟨rfl, rfl, rfl⟩

theorem addVersioning_ok (g : Bool) (s s' : Schema) (h : addVersioning g s = .ok s') :
    s'.cols = s.cols ∧ s'.period = s.period ∧ s'.versioned = true := by
  unfold addVersioning at h
  by_cases hp : s.versioned
  · rw [if_pos hp] at h
    cases g with
    | false => simp at h
    | true =>
      simp only [if_true] at h
      injection h with h2
      subst h2
      exact ⟨rfl, rfl, hp⟩
  · rw [if_neg hp] at h
    injection h with h2
    subst h2
    exact ⟨rfl, rfl, rfl⟩

theorem alterEnableSql_ok_props (g : Bool) (s s2 : Schema) (h : alterEnableSql g s = .ok s2) :
    "row_start" ∈ s2.cols ∧ "row_end" ∈ s2.cols ∧ s2.period = true ∧ s2.versioned = true := by
  unfold alterEnableSql at h
  cases h1 : addColumn g "row_start" s with
  | error e => rw [h1] at h; simp at h
  | ok t1 =>
    rw [h1] at h
    dsimp only at h
    cases h2 : addColumn g "row_end" t1 with
    | error e => rw [h2] at h; simp at h
    | ok t2 =>
      rw [h2] at h
      dsimp only at h
      cases h3 : addPeriod g t2 with
      | error e => rw [h3] at h; simp at h
      | ok t3 =>
        rw [h3] at h
        dsimp only at h
        obtain ⟨ha1, _, _, _⟩ := addColumn_ok g _ s t1 h1
        obtain ⟨hb1, hb2, _, _⟩ := addColumn_ok g _ t1 t2 h2
        obtain ⟨hc1, hc2, _⟩ := addPeriod_ok g t2 t3 h3
        obtain ⟨hd1, hd2, hd3⟩ := addVersioning_ok g t3 s2 h
        refine ⟨?_, ?_, ?_, hd3⟩
        · rw [hd1, hc1]; exact hb2 _ ha1
        · rw [hd1, hc1]; exact hb1
        · rw [hd2, hc2]

theorem alterEnableSql_guarded_idem (s2 : Schema)
    (h1 : "row_start" ∈ s2.cols) (h2 : "row_end" ∈ s2.cols)
    (h3 : s2.period = true) (h4 : s2.versioned = true) :
    alterEnableSql true s2 = .ok s2 := by
  simp [alterEnableSql, addColumn, addPeriod, addVersioning, h1, h2, h3, h4]

/-! ## Claim C2 -/

/-- C2 counterexample: on a MariaDB 10.6 server, the second call of
`TemporalMixin.enable_temporal` on an already-enabled table fails with the
duplicate-column error of its unguarded `ADD COLUMN row_start` clause; it
does not return an `AlreadyEnabled` no-op signal. -/
theorem enable_temporal_twice_fails_cex :
    enable_temporal mariaVer baseSchema = .ok enabledSchema
    ∧ enable_temporal mariaVer enabledSchema = .error (.alter (.dupColumn "row_start")) :=
  ⟨by decide, by decide⟩

/-- C2 amended: only the SQL generated by
`DatabaseOperations.enable_temporal_table` is idempotent — its
`IF NOT EXISTS` guards make a second execution succeed with the schema
unchanged — while `TemporalMixin.enable_temporal`, whose ALTER has no
guards, fails on a second call with a duplicate-column error instead of
returning an `AlreadyEnabled` signal. -/
theorem temporal_enable_idempotence_split :
    (∀ s s2, enable_temporal_table s = .ok s2 → enable_temporal_table s2 = .ok s2)
    ∧ ∀ v s s2, enable_temporal v s = .ok s2 →
        enable_temporal v s2 = .error (.alter (.dupColumn "row_start")) := by
  constructor
  · intro s s2 h
    obtain ⟨h1, h2, h3, h4⟩ := alterEnableSql_ok_props true s s2 h
    exact alterEnableSql_guarded_idem s2 h1 h2 h3 h4
  · intro v s s2 h
    unfold enable_temporal at h ⊢
    cases hc : check_preconditions v with
    | unsupportedEngine => rw [hc] at h; simp at h
    | versionTooLow => rw [hc] at h; simp at h
    | proceed =>
      rw [hc] at h
      dsimp only at h
      cases ha : alterEnableSql false s with
      | error e => rw [ha] at h; simp at h
      | ok t =>
        rw [ha] at h
        dsimp only at h
        injection h with h0
        obtain ⟨h1, _, _, _⟩ := alterEnableSql_ok_props false s t ha
        rw [h0] at h1
        have hstep : addColumn false "row_start" s2 = .error (.dupColumn "row_start") := by
          unfold addColumn
          rw [if_pos h1]
          simp
        have halter : alterEnableSql false s2 = .error (.dupColumn "row_start") := by
          unfold alterEnableSql
          rw [hstep]
        rw [halter]

/-- C2 witness: the amended theorem evaluated on a concrete base schema
and a MariaDB 10.6 version string: rerunning the guarded backend SQL is a
no-op, rerunning the unguarded `enable_temporal` fails. -/
theorem temporal_enable_idempotence_witness :
    enable_temporal_table enabledSchema = .ok enabledSchema
    ∧ enable_temporal mariaVer enabledSchema = .error (.alter (.dupColumn "row_start")) :=
  ⟨temporal_enable_idempotence_split.1 baseSchema enabledSchema (by decide),
   temporal_enable_idempotence_split.2 mariaVer baseSchema enabledSchema (by decide)⟩

/-! ## Claim C3 -/

/-- C3: `enable_temporal` mutates the schema only when the reported
version string names the compatible vendor and parses to at least
`(10, 3)`; a version below the minimum fails with the version error, and a
non-MariaDB vendor fails with the unsupported-engine error — neither path
reaches the schema mutation. -/
theorem enable_temporal_precondition_gate (v : List Char) (s : Schema) :
    (hasMaria (lowerStr v) = false → enable_temporal v s = .error .unsupportedEngine)
    ∧ (hasMaria (lowerStr v) = true → ltVerB (verKey (lowerStr v)) (10, 3) = true →
        enable_temporal v s = .error .versionTooLow)
    ∧ ∀ s2, enable_temporal v s = .ok s2 →
        hasMaria (lowerStr v) = true ∧ ltVerB (verKey (lowerStr v)) (10, 3) = false := by
  refine ⟨fun h => ?_, fun h1 h2 => ?_, fun s2 h => ?_⟩
  · simp [enable_temporal, check_preconditions, h]
  · simp [enable_temporal, check_preconditions, h1, h2]
  · by_cases hM : hasMaria (lowerStr v) = true
    · refine ⟨hM, ?_⟩
      by_cases hL : ltVerB (verKey (lowerStr v)) (10, 3) = true
      · exfalso
        rw [show enable_temporal v s = .error .versionTooLow by
          simp [enable_temporal, check_preconditions, hM, hL]] at h
        exact Except.noConfusion h
      · simpa using hL
    · exfalso
      have hF : hasMaria (lowerStr v) = false := Bool.eq_false_iff.mpr hM
      rw [show enable_temporal v s = .error .unsupportedEngine by
        simp [enable_temporal, check_preconditions, hF]] at h
      exact Except.noConfusion h

/-- C3 witness: the gate theorem evaluated on a MySQL 8.0 version string
(unsupported vendor) and a MariaDB 10.2 version string (below the
minimum). -/
theorem enable_temporal_precondition_witness :
    enable_temporal ("8.0.32-MySQL".data) baseSchema = .error .unsupportedEngine
    ∧ enable_temporal ("10.2.7-MariaDB".data) baseSchema = .error .versionTooLow :=
  ⟨(enable_temporal_precondition_gate ("8.0.32-MySQL".data) baseSchema).1 (by decide),
   (enable_temporal_precondition_gate ("10.2.7-MariaDB".data) baseSchema).2.1
     (by decide) (by decide)⟩

/-! ## Helper lemmas for the similarity engine -/

theorem mem_insertDesc (x z : Scored) (l : List Scored) :
    z ∈ insertDesc x l ↔ z = x ∨ z ∈ l := by
  induction l with
  | nil => simp [insertDesc]
  | cons y ys ih =>
    rw [insertDesc]
    by_cases h : x.score < y.score
    · rw [if_pos h]
      simp only [List.mem_cons, ih]
      tauto
    · rw [if_neg h]
      simp only [List.mem_cons]

theorem mem_sortDesc (z : Scored) (l : List Scored) : z ∈ sortDesc l ↔ z ∈ l := by
  induction l with
  | nil => simp [sortDesc]
  | cons y ys ih =>
    rw [sortDesc, mem_insertDesc]
    simp [ih]

theorem scoreCands_mem (q : List ℝ) (th : ℝ) (i : Nat) (cs : List Cand) (z : Scored)
    (hz : z ∈ scoreCands q th i cs) :
    th ≤ z.score
    ∧ ∃ c ∈ cs, ∃ vv, c.vec = some vv ∧ z.cid = c.cid ∧ z.score = cosine_similarity q vv := by
  induction cs generalizing i with
  | nil => simp [scoreCands] at hz
  | cons c cs ih =>
    rw [scoreCands] at hz
    cases hv : c.vec with
    | none =>
      rw [hv] at hz
      dsimp only at hz
      obtain ⟨h1, c2, hc2, rest⟩ := ih (i + 1) hz
      exact ⟨h1, c2, by simp [hc2], rest⟩
    | some vv =>
      rw [hv] at hz
      dsimp only at hz
      by_cases hth : th ≤ cosine_similarity q vv
      · rw [if_pos hth] at hz
        rcases List.mem_cons.mp hz with hzeq | hz2
        · subst hzeq
          exact ⟨hth, c, by simp, vv, hv, rfl, rfl⟩
        · obtain ⟨h1, c2, hc2, rest⟩ := ih (i + 1) hz2
          exact ⟨h1, c2, by simp [hc2], rest⟩
      · rw [if_neg hth] at hz
        obtain ⟨h1, c2, hc2, rest⟩ := ih (i + 1) hz
        exact ⟨h1, c2, by simp [hc2], rest⟩

theorem scoreCands_idx_lb (q : List ℝ) (th : ℝ) (i : Nat) (cs : List Cand) (z : Scored)
    (hz : z ∈ scoreCands q th i cs) : i ≤ z.idx := by
  induction cs generalizing i with
  | nil => simp [scoreCands] at hz
  | cons c cs ih =>
    rw [scoreCands] at hz
    cases hv : c.vec with
    | none =>
      rw [hv] at hz
      dsimp only at hz
      exact Nat.le_of_succ_le (ih (i + 1) hz)
    | some vv =>
      rw [hv] at hz
      dsimp only at hz
      by_cases hth : th ≤ cosine_similarity q vv
      · rw [if_pos hth] at hz
        rcases List.mem_cons.mp hz with hzeq | hz2
        · subst hzeq; exact le_refl i
        · exact Nat.le_of_succ_le (ih (i + 1) hz2)
      · rw [if_neg hth] at hz
        exact Nat.le_of_succ_le (ih (i + 1) hz)

theorem scoreCands_pairwise_idx (q : List ℝ) (th : ℝ) (i : Nat) (cs : List Cand) :
    (scoreCands q th i cs).Pairwise (fun a b => a.idx < b.idx) := by
  induction cs generalizing i with
  | nil => simp [scoreCands]
  | cons c cs ih =>
    rw [scoreCands]
    cases hv : c.vec with
    | none => exact ih (i + 1)
    | some vv =>
      dsimp only
      by_cases hth : th ≤ cosine_similarity q vv
      · rw [if_pos hth]
        rw [List.pairwise_cons]
        exact ⟨fun z hz => scoreCands_idx_lb q th (i + 1) cs z hz, ih (i + 1)⟩
      · rw [if_neg hth]
        exact ih (i + 1)

theorem insertDesc_sorted (x : Scored) (l : List Scored)
    (hl : l.Pairwise (fun a b => b.score ≤ a.score)) :
    (insertDesc x l).Pairwise (fun a b => b.score ≤ a.score) := by
  induction l with
  | nil => simp [insertDesc]
  | cons y ys ih =>
    rw [List.pairwise_cons] at hl
    obtain ⟨hy, hys⟩ := hl
    rw [insertDesc]
    by_cases h : x.score < y.score
    · rw [if_pos h]
      rw [List.pairwise_cons]
      refine ⟨fun z hz => ?_, ih hys⟩
      rcases (mem_insertDesc x z ys).mp hz with hzx | hzy
      · subst hzx; exact le_of_lt h
      · exact hy z hzy
    · rw [if_neg h]
      rw [List.pairwise_cons]
      refine ⟨fun z hz => ?_, ?_⟩
      · rcases List.mem_cons.mp hz with hzy | hzys
        · subst hzy; exact le_of_not_lt h
        · exact le_trans (hy z hzys) (le_of_not_lt h)
      · rw [List.pairwise_cons]
        exact ⟨hy, hys⟩

theorem sortDesc_sorted (l : List Scored) :
    (sortDesc l).Pairwise (fun a b => b.score ≤ a.score) := by
  induction l with
  | nil => simp [sortDesc]
  | cons x xs ih => exact insertDesc_sorted x (sortDesc xs) ih

theorem insertDesc_lex (x : Scored) (l : List Scored)
    (hl : l.Pairwise (fun a b => b.score < a.score ∨ (a.score = b.score ∧ a.idx < b.idx)))
    (hidx : ∀ y ∈ l, x.idx < y.idx) :
    (insertDesc x l).Pairwise
      (fun a b => b.score < a.score ∨ (a.score = b.score ∧ a.idx < b.idx)) := by
  induction l with
  | nil => simp [insertDesc]
  | cons y ys ih =>
    rw [List.pairwise_cons] at hl
    obtain ⟨hy, hys⟩ := hl
    rw [insertDesc]
    by_cases h : x.score < y.score
    · rw [if_pos h]
      rw [List.pairwise_cons]
      refine ⟨fun z hz => ?_, ih hys (fun z hz => hidx z (by simp [hz]))⟩
      rcases (mem_insertDesc x z ys).mp hz with hzx | hzy
      · subst hzx; exact Or.inl h
      · exact hy z hzy
    · rw [if_neg h]
      rw [List.pairwise_cons]
      have hxy : y.score ≤ x.score := le_of_not_lt h
      refine ⟨fun z hz => ?_, List.pairwise_cons.mpr ⟨hy, hys⟩⟩
      rcases List.mem_cons.mp hz with hzy | hzys
      · subst hzy
        rcases lt_or_eq_of_le hxy with hlt | heq
        · exact Or.inl hlt
        · exact Or.inr ⟨heq.symm, hidx z (by simp)⟩
      · rcases hy z hzys with hlt | ⟨heq, _⟩
        · exact Or.inl (lt_of_lt_of_le hlt hxy)
        · rcases lt_or_eq_of_le hxy with hlt2 | heq2
          · exact Or.inl (heq ▸ hlt2)
          · exact Or.inr ⟨heq2.symm.trans heq, hidx z (by simp [hzys])⟩

theorem sortDesc_lex (l : List Scored)
    (hl : l.Pairwise (fun a b => a.idx < b.idx)) :
    (sortDesc l).Pairwise
      (fun a b => b.score < a.score ∨ (a.score = b.score ∧ a.idx < b.idx)) := by
  induction l with
  | nil => simp [sortDesc]
  | cons x xs ih =>
    rw [List.pairwise_cons] at hl
    obtain ⟨hx, hxs⟩ := hl
    rw [sortDesc]
    exact insertDesc_lex x (sortDesc xs) (ih hxs)
      (fun y hy => hx y ((mem_sortDesc y xs).mp hy))

/-! ## Claim C7 -/

/-- C7: `search_similar` returns at most `limit` results, every result
scores at least `threshold`, the results are sorted by descending score,
ties are kept in candidate iteration order (the index conjunct), and every
result stems from a candidate whose vector is present, carrying its exact
cosine similarity — absent vectors are skipped, never scored as zero. -/
theorem search_similar_spec (query : List ℝ) (cands : List Cand) (limit : Nat) (threshold : ℝ) :
    (search_similar query cands limit threshold).length ≤ limit
    ∧ (∀ r ∈ search_similar query cands limit threshold, threshold ≤ r.score)
    ∧ (search_similar query cands limit threshold).Pairwise (fun a b => b.score ≤ a.score)
    ∧ (search_similar query cands limit threshold).Pairwise
        (fun a b => b.score < a.score ∨ (a.score = b.score ∧ a.idx < b.idx))
    ∧ ∀ r ∈ search_similar query cands limit threshold,
        ∃ c ∈ cands, ∃ vv, c.vec = some vv ∧ r.cid = c.cid
          ∧ r.score = cosine_similarity query vv := by
  have hmem : ∀ r ∈ search_similar query cands limit threshold,
      r ∈ scoreCands query threshold 0 cands := by
    intro r hr
    exact (mem_sortDesc r _).mp (List.take_subset _ _ hr)
  refine ⟨?_, fun r hr => (scoreCands_mem _ _ _ _ r (hmem r hr)).1, ?_, ?_,
    fun r hr => (scoreCands_mem _ _ _ _ r (hmem r hr)).2⟩
  · exact List.length_take_le _ _
  · exact List.Pairwise.sublist (List.take_sublist _ _) (sortDesc_sorted _)
  · exact List.Pairwise.sublist (List.take_sublist _ _)
      (sortDesc_lex _ (scoreCands_pairwise_idx _ _ _ _))

/-- C7 witness: the specification evaluated at a concrete query and
candidate set whose single candidate is retained, instantiating the
threshold bound for the concrete result. -/
theorem search_similar_spec_witness :
    (0 : ℝ) ≤ (Scored.mk 0 7 0).score :=
  (search_similar_spec [] [⟨7, some []⟩] 1 0).2.1 ⟨0, 7, 0⟩
    (by simp [search_similar, scoreCands, cosine_similarity, normE, sortDesc, insertDesc])

/-! ## Claim C8 -/

/-- C8: `cosine_similarity a b` equals the dot product divided by the
product of the Euclidean norms for every pair of equal-length vectors, and
returns `0.0` whenever either norm is zero instead of failing on the
division. -/
theorem cosine_similarity_spec (a b : List ℝ) (_hlen : a.length = b.length) :
    cosine_similarity a b = dotl a b / (normE a * normE b)
    ∧ ((normE a = 0 ∨ normE b = 0) → cosine_similarity a b = 0) := by
  constructor
  · by_cases hg : normE a ≠ 0 ∧ normE b ≠ 0
    · rw [cosine_similarity, if_pos hg]
    · rw [cosine_similarity, if_neg hg]
      rcases not_and_or.mp hg with h1 | h2
      · rw [not_not] at h1
        rw [h1, zero_mul, div_zero]
      · rw [not_not] at h2
        rw [h2, mul_zero, div_zero]
  · intro h0
    have hng : ¬(normE a ≠ 0 ∧ normE b ≠ 0) := by
      rcases h0 with h1 | h2
      · exact fun hg => hg.1 h1
      · exact fun hg => hg.2 h2
    rw [cosine_similarity, if_neg hng]

/-- C8 witness: the specification evaluated on concrete zero-norm
vectors. -/
theorem cosine_similarity_spec_witness :
    cosine_similarity [(0 : ℝ)] [(0 : ℝ)] = 0 :=
  (cosine_similarity_spec [(0 : ℝ)] [(0 : ℝ)] rfl).2 (Or.inl (by simp [normE]))

/-! ## Claim C10 -/

/-- C10: when the stored metadata/metrics value is `None` or a string
`json.loads` cannot parse, `_load_json_field` yields the empty mapping and
each mutation helper proceeds without raising, producing a structurally
valid document: `add_tag` yields a dict with the single tag list,
`set_category` the single category, `flag_for_moderation` the three
moderation keys, and `increment_metric` the counter initialized to zero
plus the increment. -/
theorem metadata_helpers_invalid_json_spec (v : Stored)
    (tag category reason now mname : String) (amount : ℚ)
    (h : invalidStored v) :
    load_json_field v = .obj []
    ∧ add_tag v tag = .ok (.obj [("tags", .arr [.str tag])])
    ∧ set_category v category = .ok (.obj [("category", .str category)])
    ∧ flag_for_moderation v reason now =
        .ok (.obj [("flagged", .jbool true), ("flag_reason", .str reason),
          ("flagged_at", .str now)])
    ∧ increment_metric v mname amount = .ok (.obj [(mname, .num amount)]) := by
  have hload : load_json_field v = .obj [] := by
    rcases h with hn | ⟨s, hs, hp⟩
    · subst hn; rfl
    · subst hs
      simp [load_json_field, hp]
  refine ⟨hload, ?_, ?_, ?_, ?_⟩
  · simp only [add_tag]
    rw [hload]
    rfl
  · simp only [set_category]
    rw [hload]
    rfl
  · simp only [flag_for_moderation]
    rw [hload]
    rfl
  · simp only [increment_metric]
    rw [hload]
    dsimp only
    rw [zero_add]
    rfl

/-- C10 witness: the specification evaluated on the concrete unparseable
string `oops`, whose `add_tag` application produces the singleton tags
document. -/
theorem metadata_helpers_invalid_json_witness :
    invalidStored (.pystr "oops")
    ∧ add_tag (.pystr "oops") "b" = .ok (.obj [("tags", .arr [.str "b"])]) :=
  ⟨Or.inr ⟨"oops", rfl, rfl⟩,
   (metadata_helpers_invalid_json_spec (.pystr "oops") "b" "c" "r" "t" "m" 1
     (Or.inr ⟨"oops", rfl, rfl⟩)).2.1⟩
